import Mathlib

/-!
Verification of the duck_my_music audio-ducking core.

The repository ships a launcher (`duck_my_music_silent.pyw`), a GUI start
script and a PyInstaller build file; the audio core (Fade Controller,
Activity Detector, Ducking State Machine, configuration validation) is
described by the specification.  Definitions below that embed the core are
modelled from the specification text; the launcher is embedded from its
source.  Volume levels are rationals, matching the exact real-number
semantics the specification assigns to interpolation and clamping.
-/

namespace DuckMyMusic

/-- Clamp a level into `[0,1]`; the spec clamps every interpolated volume
value to absorb floating-point drift at the endpoints. -/
def clamp01 (x : ℚ) : ℚ := max 0 (min 1 x)

/-- Modelled from the spec: the Fade Controller's `FadeJob`
(`{from_level, to_level, duration, steps, cancel_token}`); the fade core
`duck_my_music.py` is not under `src/`.  Duration and the cancel token do
not affect the emitted values and are modelled separately. -/
structure FadeJob where
  from_level : ℚ
  to_level : ℚ
  steps : ℕ

/-- Modelled from the spec: the linear interpolation between `from_level`
and `to_level` used by the Fade Controller, evaluated at step `i` of
`j.steps`. -/
def lerpQ (j : FadeJob) (i : ℕ) : ℚ :=
  j.from_level + (j.to_level - j.from_level) * i / j.steps

/-- Modelled from the spec: the volume value the Fade Controller sets at
step `i`: interpolation clamped to `[0,1]`, except that the final step
always sets exactly `to_level`. -/
def fadeValue (j : FadeJob) (i : ℕ) : ℚ :=
  if i = j.steps then j.to_level else clamp01 (lerpQ j i)

/-- Modelled from the spec: the sequence of volume values a fade job
emits via `set_volume`, one per step, steps numbered `1..steps`. -/
def fadeEmits (j : FadeJob) : List ℚ :=
  (List.range j.steps).map (fun k => fadeValue j (k + 1))

theorem clamp01_nonneg (x : ℚ) : 0 ≤ clamp01 x := le_max_left 0 _

theorem clamp01_le_one (x : ℚ) : clamp01 x ≤ 1 :=
  max_le (by norm_num) (min_le_left 1 x)

theorem clamp01_mono {x y : ℚ} (h : x ≤ y) : clamp01 x ≤ clamp01 y :=
  max_le_max le_rfl (min_le_min le_rfl h)

theorem clamp01_of_mem {x : ℚ} (h0 : 0 ≤ x) (h1 : x ≤ 1) : clamp01 x = x := by
  unfold clamp01
  rw [min_eq_right h1, max_eq_right h0]

theorem lerpQ_zero (j : FadeJob) : lerpQ j 0 = j.from_level := by
  simp [lerpQ]

theorem lerpQ_steps (j : FadeJob) (hs : 0 < j.steps) : lerpQ j j.steps = j.to_level := by
  have hne : (j.steps : ℚ) ≠ 0 := by
    exact_mod_cast Nat.pos_iff_ne_zero.mp hs
  field_simp [lerpQ]

theorem lerpQ_mono_of_le (j : FadeJob) (hft : j.from_level ≤ j.to_level)
    (hs : 0 < j.steps) {i k : ℕ} (hik : i ≤ k) : lerpQ j i ≤ lerpQ j k := by
  unfold lerpQ
  have hsq : (0 : ℚ) < j.steps := by exact_mod_cast hs
  have h1 : (j.to_level - j.from_level) * i ≤ (j.to_level - j.from_level) * k :=
    mul_le_mul_of_nonneg_left (by exact_mod_cast hik) (sub_nonneg.mpr hft)
  have := div_le_div_of_nonneg_right h1 hsq.le
  linarith

theorem lerpQ_anti_of_le (j : FadeJob) (htf : j.to_level ≤ j.from_level)
    (hs : 0 < j.steps) {i k : ℕ} (hik : i ≤ k) : lerpQ j k ≤ lerpQ j i := by
  unfold lerpQ
  have hsq : (0 : ℚ) < j.steps := by exact_mod_cast hs
  have h1 : (j.to_level - j.from_level) * k ≤ (j.to_level - j.from_level) * i := by
    apply mul_le_mul_of_nonpos_left (by exact_mod_cast hik) (sub_nonpos.mpr htf)
  have := div_le_div_of_nonneg_right h1 hsq.le
  linarith

/-- Between its endpoints: the interpolated value at any step `i ≤ steps`
lies between `from_level` and `to_level`. -/
theorem lerpQ_between (j : FadeJob) (hs : 0 < j.steps) {i : ℕ} (hi : i ≤ j.steps) :
    min j.from_level j.to_level ≤ lerpQ j i ∧
    lerpQ j i ≤ max j.from_level j.to_level := by
  rcases le_total j.from_level j.to_level with hft | htf
  · constructor
    · have := lerpQ_mono_of_le j hft hs (Nat.zero_le i)
      rw [lerpQ_zero] at this
      exact le_trans (min_le_left _ _) this
    · have := lerpQ_mono_of_le j hft hs hi
      rw [lerpQ_steps j hs] at this
      exact le_trans this (le_max_right _ _)
  · constructor
    · have := lerpQ_anti_of_le j htf hs hi
      rw [lerpQ_steps j hs] at this
      exact le_trans (min_le_right _ _) this
    · have := lerpQ_anti_of_le j htf hs (Nat.zero_le i)
      rw [lerpQ_zero] at this
      exact le_trans this (le_max_left _ _)

/-- When both endpoint levels are already in `[0,1]`, every fade value is
the raw interpolation: the clamp is the identity there. -/
theorem fadeValue_eq_lerpQ (j : FadeJob) (h0f : 0 ≤ j.from_level) (h1f : j.from_level ≤ 1)
    (h0t : 0 ≤ j.to_level) (h1t : j.to_level ≤ 1) (hs : 0 < j.steps)
    {i : ℕ} (hi : i ≤ j.steps) : fadeValue j i = lerpQ j i := by
  have hmin : (0 : ℚ) ≤ min j.from_level j.to_level := le_min h0f h0t
  have hmax : max j.from_level j.to_level ≤ 1 := max_le h1f h1t
  have hb := lerpQ_between j hs hi
  have h0 : 0 ≤ lerpQ j i := le_trans hmin hb.1
  have h1 : lerpQ j i ≤ 1 := le_trans hb.2 hmax
  unfold fadeValue
  by_cases hieq : i = j.steps
  · rw [if_pos hieq, hieq, lerpQ_steps j hs]
  · rw [if_neg hieq, clamp01_of_mem h0 h1]

theorem fadeValue_steps (j : FadeJob) : fadeValue j j.steps = j.to_level := by
  simp [fadeValue]

theorem fadeValue_mem_unit (j : FadeJob) (h0t : 0 ≤ j.to_level) (h1t : j.to_level ≤ 1)
    (i : ℕ) : 0 ≤ fadeValue j i ∧ fadeValue j i ≤ 1 := by
  unfold fadeValue
  by_cases hieq : i = j.steps
  · rw [if_pos hieq]; exact ⟨h0t, h1t⟩
  · rw [if_neg hieq]; exact ⟨clamp01_nonneg _, clamp01_le_one _⟩

theorem fadeEmits_getLast (j : FadeJob) (hs : 0 < j.steps) :
    (fadeEmits j).getLast? = some j.to_level := by
  obtain ⟨n, hn⟩ : ∃ n, j.steps = n + 1 := ⟨j.steps - 1, by omega⟩
  unfold fadeEmits
  rw [hn, List.range_succ, List.map_append, List.map_singleton, List.getLast?_concat]
  rw [show n + 1 = j.steps from hn.symm, fadeValue_steps]

/-- C1: for a fade job with `from_level` and `to_level` in `[0,1]` and a
positive step count, the emitted volume sequence is monotonic in the
direction of travel (non-increasing when `to_level ≤ from_level`,
non-decreasing when `from_level ≤ to_level`), every emitted value lies in
`[0,1]`, and the last emitted value equals `to_level` exactly. -/
theorem fade_monotone_bounded_exact (j : FadeJob)
    (h0f : 0 ≤ j.from_level) (h1f : j.from_level ≤ 1)
    (h0t : 0 ≤ j.to_level) (h1t : j.to_level ≤ 1) (hs : 0 < j.steps) :
    (j.to_level ≤ j.from_level →
      ∀ i k, i ≤ k → k ≤ j.steps → fadeValue j k ≤ fadeValue j i) ∧
    (j.from_level ≤ j.to_level →
      ∀ i k, i ≤ k → k ≤ j.steps → fadeValue j i ≤ fadeValue j k) ∧
    (∀ v ∈ fadeEmits j, 0 ≤ v ∧ v ≤ 1) ∧
    (fadeEmits j).getLast? = some j.to_level := by
  refine ⟨?_, ?_, ?_, fadeEmits_getLast j hs⟩
  · intro htf i k hik hk
    rw [fadeValue_eq_lerpQ j h0f h1f h0t h1t hs (le_trans hik hk),
        fadeValue_eq_lerpQ j h0f h1f h0t h1t hs hk]
    exact lerpQ_anti_of_le j htf hs hik
  · intro hft i k hik hk
    rw [fadeValue_eq_lerpQ j h0f h1f h0t h1t hs (le_trans hik hk),
        fadeValue_eq_lerpQ j h0f h1f h0t h1t hs hk]
    exact lerpQ_mono_of_le j hft hs hik
  · intro v hv
    obtain ⟨k, _, hkv⟩ := List.mem_map.mp hv
    exact hkv ▸ fadeValue_mem_unit j h0t h1t (k + 1)

/-- Witness for C1 at the spec's example config: a duck fade from level 1
to level 3/20 in 20 steps ends exactly at 3/20. -/
theorem fade_monotone_bounded_exact_witness :
    (fadeEmits ⟨1, 3 / 20, 20⟩).getLast? = some ((3 : ℚ) / 20) :=
  (fade_monotone_bounded_exact ⟨1, 3 / 20, 20⟩ (by norm_num) (by norm_num)
    (by norm_num) (by norm_num) (by norm_num)).2.2.2

/-- Modelled from the spec: the Ducking State Machine's reaction to a
reverse trigger `n` steps into an in-flight fade (rows
`Transitioning(down)/(up)` of the transition table): cancel the current
fade and start a new one from the fade's current interpolated level toward
`new_to`; the fade core `duck_my_music.py` is not under `src/`. -/
def reverseFade (j : FadeJob) (n : ℕ) (new_to : ℚ) : FadeJob :=
  { from_level := fadeValue j n, to_level := new_to, steps := j.steps }

/-- C2: interrupting a fade after `n < steps` steps yields a new job whose
`from_level` is the actual current interpolated volume (the value emitted
at step `n`), whose `to_level` is the requested restore level, and whose
first emitted value sits exactly one interpolation step of the new fade
away from the current level — no discontinuous jump at the reversal. -/
theorem fade_reversal_continuous (j : FadeJob) (t : ℚ)
    (h0f : 0 ≤ j.from_level) (h1f : j.from_level ≤ 1)
    (h0t : 0 ≤ j.to_level) (h1t : j.to_level ≤ 1)
    (h0n : 0 ≤ t) (h1n : t ≤ 1) (hs : 0 < j.steps) {n : ℕ} (hn : n < j.steps) :
    (reverseFade j n t).from_level = fadeValue j n ∧
    (reverseFade j n t).to_level = t ∧
    |fadeValue (reverseFade j n t) 1 - fadeValue j n| * (j.steps : ℚ) =
      |t - fadeValue j n| := by
  refine ⟨rfl, rfl, ?_⟩
  have hcur := fadeValue_mem_unit j h0t h1t n
  have hsteps : (reverseFade j n t).steps = j.steps := rfl
  have h1le : 1 ≤ (reverseFade j n t).steps := by rw [hsteps]; exact hs
  have hval : fadeValue (reverseFade j n t) 1 = lerpQ (reverseFade j n t) 1 :=
    fadeValue_eq_lerpQ _ hcur.1 hcur.2 h0n h1n (hsteps ▸ hs) h1le
  have hM : (0 : ℚ) < (j.steps : ℚ) := by exact_mod_cast hs
  rw [hval]
  have e : lerpQ (reverseFade j n t) 1 - fadeValue j n =
      (t - fadeValue j n) / (j.steps : ℚ) := by
    unfold lerpQ reverseFade
    push_cast
    ring
  rw [e, abs_div, abs_of_pos hM, div_mul_cancel₀ _ (ne_of_gt hM)]

/-- Witness for C2: a duck fade from 1 toward 3/20 in 20 steps, reversed
after 5 steps toward level 1, starts from the level emitted at step 5. -/
theorem fade_reversal_continuous_witness :
    (reverseFade ⟨1, 3 / 20, 20⟩ 5 1).from_level = fadeValue ⟨1, 3 / 20, 20⟩ 5 :=
  (fade_reversal_continuous ⟨1, 3 / 20, 20⟩ 1 (by norm_num) (by norm_num)
    (by norm_num) (by norm_num) (by norm_num) (by norm_num) (by norm_num)
    (by norm_num)).1

/-- Modelled from the spec: an in-flight fade job as tracked by the Fade
Controller for one target: an identifier plus its cooperative cancellation
token; the fade core `duck_my_music.py` is not under `src/`. -/
structure ControllerJob where
  jid : ℕ
  cancelled : Bool
deriving DecidableEq

/-- Setting a job's cancellation token. -/
def cancelJob (g : ControllerJob) : ControllerJob := { g with cancelled := true }

/-- Modelled from the spec: the Fade Controller's bookkeeping for one
target application: a fresh-id counter and every job ever created, each
carrying its cancellation token. -/
structure FadeController where
  nextId : ℕ
  jobs : List ControllerJob
deriving DecidableEq

def FadeController.init : FadeController := ⟨0, []⟩

/-- Modelled from the spec: each call to `start_fade` first cancels any
in-flight job for the same target, then registers the new job. -/
def startFade (c : FadeController) : FadeController :=
  { nextId := c.nextId + 1,
    jobs := ⟨c.nextId, false⟩ :: c.jobs.map cancelJob }

/-- Modelled from the spec: cancelling every in-flight job (used by
`disable` and `shutdown`). -/
def cancelAllJobs (c : FadeController) : FadeController :=
  { c with jobs := c.jobs.map cancelJob }

/-- Modelled from the spec: a job that has run its last step retires its
token, so it can issue no further steps. -/
def finishJob (c : FadeController) (i : ℕ) : FadeController :=
  { c with jobs := c.jobs.map (fun g => if g.jid = i then cancelJob g else g) }

/-- Modelled from the spec: the cancellation token is checked before each
step; the step fires (returning the issuing job's id) only when the job's
token is unset. -/
def stepEmits (c : FadeController) (i : ℕ) : List ℕ :=
  if c.jobs.any (fun g => g.jid == i && !g.cancelled) then [i] else []

/-- The actions that reach the Fade Controller's bookkeeping. -/
inductive FCAct where
  | start
  | cancelAll
  | step (i : ℕ)
  | finish (i : ℕ)

/-- One action against the controller, with the step events it emits. -/
def fcApply (c : FadeController) : FCAct → FadeController × List ℕ
  | .start => (startFade c, [])
  | .cancelAll => (cancelAllJobs c, [])
  | .step i => (c, stepEmits c i)
  | .finish i => (finishJob c i, [])

/-- Number of jobs whose cancellation token is still unset. -/
def activeCount (c : FadeController) : ℕ :=
  (c.jobs.filter (fun g => !g.cancelled)).length

def fcRun (c : FadeController) : List FCAct → FadeController
  | [] => c
  | a :: as => fcRun (fcApply c a).1 as

theorem filter_map_cancelJob (l : List ControllerJob) :
    (l.map cancelJob).filter (fun g => !g.cancelled) = [] := by
  induction l with
  | nil => rfl
  | cons g l ih => simpa [cancelJob] using ih

theorem activeCount_startFade (c : FadeController) : activeCount (startFade c) = 1 := by
  unfold activeCount startFade
  simp [filter_map_cancelJob]

theorem activeCount_cancelAllJobs (c : FadeController) :
    activeCount (cancelAllJobs c) = 0 := by
  unfold activeCount cancelAllJobs
  simp [filter_map_cancelJob]

theorem activeCount_finishJob (c : FadeController) (i : ℕ) :
    activeCount (finishJob c i) ≤ activeCount c := by
  unfold activeCount finishJob
  induction c.jobs with
  | nil => simp
  | cons g l ih =>
    by_cases hji : g.jid = i
    · by_cases hgc : g.cancelled
      · simpa [hji, cancelJob, hgc] using ih
      · simp only [List.map_cons, if_pos hji, List.filter_cons, cancelJob, hgc]
        simpa using Nat.le_succ_of_le ih
    · by_cases hgc : g.cancelled
      · simpa [hji, hgc] using ih
      · simp only [List.map_cons, if_neg hji, List.filter_cons, hgc]
        simpa using ih

theorem activeCount_fcRun_le (acts : List FCAct) (c : FadeController)
    (hc : activeCount c ≤ 1) : activeCount (fcRun c acts) ≤ 1 := by
  induction acts generalizing c with
  | nil => exact hc
  | cons a as ih =>
    cases a with
    | start => exact ih _ (le_of_eq (activeCount_startFade c))
    | cancelAll =>
      exact ih (cancelAllJobs c) (by rw [activeCount_cancelAllJobs]; exact Nat.zero_le 1)
    | step i => exact ih _ hc
    | finish i => exact ih _ (le_trans (activeCount_finishJob c i) hc)

/-- C3: single-flight per target.  From the initial controller state, any
sequence of start/cancel/step/finish actions leaves at most one job whose
cancellation token is unset; and a step check for a job whose token is set
emits nothing — no fade step is issued after cancellation. -/
theorem single_flight_no_step_after_cancel (acts : List FCAct) :
    activeCount (fcRun FadeController.init acts) ≤ 1 ∧
    (∀ (c : FadeController) (i : ℕ),
      (∀ g ∈ c.jobs, g.jid = i → g.cancelled = true) → stepEmits c i = []) := by
  constructor
  · exact activeCount_fcRun_le acts FadeController.init (by decide)
  · intro c i h
    unfold stepEmits
    have hany : c.jobs.any (fun g => g.jid == i && !g.cancelled) = false := by
      rw [List.any_eq_false]
      intro g hg
      simp only [Bool.and_eq_true, beq_iff_eq, Bool.not_eq_true', not_and]
      intro hji
      rw [h g hg hji]
      simp
    rw [hany]
    simp

/-- Witness for C3: a controller holding two cancelled jobs emits no step
for job 0, and the empty action sequence keeps at most one active job. -/
theorem single_flight_no_step_after_cancel_witness :
    stepEmits ⟨2, [⟨0, true⟩, ⟨1, true⟩]⟩ 0 = [] :=
  (single_flight_no_step_after_cancel []).2 ⟨2, [⟨0, true⟩, ⟨1, true⟩]⟩ 0 (by decide)

/-- Modelled from the spec: the Ducking State Machine's states
`Normal`, `Transitioning(down)`, `Transitioning(up)`, `Ducked`; the core
`duck_my_music.py` is not under `src/`. -/
inductive DuckState where
  | Normal
  | TransDown
  | TransUp
  | Ducked
deriving DecidableEq, Fintype

/-- Modelled from the spec: the action column of the transition table. -/
inductive MachineAct where
  | none
  | startFadeDown
  | startFadeUp
  | forceNormal
deriving DecidableEq, Fintype

/-- Modelled from the spec: one row lookup of the transition table, on the
sampled aggregated trigger boolean, the `enabled` flag, and whether the
in-flight fade has completed. -/
def dmStep (s : DuckState) (enabled trigger fadeDone : Bool) : DuckState × MachineAct :=
  if !enabled then (.Normal, .forceNormal)
  else
    match s with
    | .Normal => if trigger then (.TransDown, .startFadeDown) else (.Normal, .none)
    | .Ducked => if !trigger then (.TransUp, .startFadeUp) else (.Ducked, .none)
    | .TransDown =>
        if !trigger then (.TransUp, .startFadeUp)
        else if fadeDone then (.Ducked, .none) else (.TransDown, .none)
    | .TransUp =>
        if trigger then (.TransDown, .startFadeDown)
        else if fadeDone then (.Normal, .none) else (.TransUp, .none)

/-- The edges the spec allows: staying put; the four legs of the duck and
restore cycles; the two mid-flight reversals; and, when disabled, the
reset to `Normal`. -/
def allowedEdge (enabled : Bool) (s s' : DuckState) : Bool :=
  s == s' ||
  (enabled &&
    ((s == .Normal && s' == .TransDown) ||
     (s == .TransDown && s' == .Ducked) ||
     (s == .Ducked && s' == .TransUp) ||
     (s == .TransUp && s' == .Normal) ||
     (s == .TransDown && s' == .TransUp) ||
     (s == .TransUp && s' == .TransDown))) ||
  (!enabled && s' == .Normal)

/-- The labelled steps (state before, input, state after) of a machine run
over a list of `(enabled, trigger, fadeDone)` inputs. -/
def dmSteps (s : DuckState) :
    List (Bool × Bool × Bool) → List (DuckState × (Bool × Bool × Bool) × DuckState)
  | [] => []
  | i :: ins =>
    (s, i, (dmStep s i.1 i.2.1 i.2.2).1) :: dmSteps (dmStep s i.1 i.2.1 i.2.2).1 ins

theorem dmStep_edge_ok : ∀ (s : DuckState) (e t f : Bool),
    allowedEdge e s (dmStep s e t f).1 = true ∧
    ¬(s = DuckState.Normal ∧ (dmStep s e t f).1 = DuckState.Ducked) ∧
    (e = true → ¬(s = DuckState.Ducked ∧ (dmStep s e t f).1 = DuckState.Normal)) := by
  decide

/-- C4: along every run from the initial state `Normal`, each taken step
is one of the allowed edges (self-loop, Normal→Transitioning(down),
Transitioning(down)→Ducked, Ducked→Transitioning(up),
Transitioning(up)→Normal, either mid-flight reversal, or the disable
reset to Normal); no step goes from `Normal` directly to `Ducked`, and no
enabled step goes from `Ducked` directly to `Normal`. -/
theorem duck_state_transitions_allowed (ins : List (Bool × Bool × Bool)) :
    ∀ p ∈ dmSteps DuckState.Normal ins,
      allowedEdge p.2.1.1 p.1 p.2.2 = true ∧
      ¬(p.1 = DuckState.Normal ∧ p.2.2 = DuckState.Ducked) ∧
      (p.2.1.1 = true → ¬(p.1 = DuckState.Ducked ∧ p.2.2 = DuckState.Normal)) := by
  suffices h : ∀ (s : DuckState) (l : List (Bool × Bool × Bool)), ∀ p ∈ dmSteps s l,
      allowedEdge p.2.1.1 p.1 p.2.2 = true ∧
      ¬(p.1 = DuckState.Normal ∧ p.2.2 = DuckState.Ducked) ∧
      (p.2.1.1 = true → ¬(p.1 = DuckState.Ducked ∧ p.2.2 = DuckState.Normal)) by
    exact h DuckState.Normal ins
  intro s l
  induction l generalizing s with
  | nil => intro p hp; exact absurd hp (List.not_mem_nil p)
  | cons i is ih =>
    intro p hp
    rcases List.mem_cons.mp hp with hhd | htl
    · subst hhd
      exact dmStep_edge_ok s i.1 i.2.1 i.2.2
    · exact ih _ p htl

/-- Witness for C4: on the one-tick input (enabled, trigger active, fade
not done), the machine takes the allowed edge Normal→Transitioning(down). -/
theorem duck_state_transitions_allowed_witness :
    allowedEdge true DuckState.Normal DuckState.TransDown = true :=
  (duck_state_transitions_allowed [(true, true, false)]
    (DuckState.Normal, (true, true, false), DuckState.TransDown) (by decide)).1

/-- Modelled from the spec: the Activity Detector's debounce state — the
currently reported activity flag and the count of consecutive silent
ticks observed. -/
structure DetState where
  reported : Bool
  silent : ℕ
deriving DecidableEq

/-- Modelled from the spec: one detector tick with debounce threshold `D`:
an active raw reading is reported immediately and resets the silence
counter; a silent reading is reported as inactive only once `D`
consecutive silent ticks have accumulated. -/
def detStep (D : ℕ) (s : DetState) (raw : Bool) : DetState :=
  if raw then ⟨true, 0⟩
  else if s.reported && decide (s.silent + 1 < D) then ⟨true, s.silent + 1⟩
  else ⟨false, s.silent + 1⟩

def detRun (D : ℕ) (s : DetState) : List Bool → DetState
  | [] => s
  | b :: bs => detRun D (detStep D s b) bs

theorem detRun_replicate_false (D : ℕ) :
    ∀ (k c : ℕ), c + k < D →
      detRun D ⟨true, c⟩ (List.replicate k false) = ⟨true, c + k⟩ := by
  intro k
  induction k with
  | zero => intro c _; rfl
  | succ k ih =>
    intro c hc
    rw [List.replicate_succ]
    show detRun D (detStep D ⟨true, c⟩ false) (List.replicate k false) = _
    have hstep : detStep D ⟨true, c⟩ false = ⟨true, c + 1⟩ := by
      unfold detStep
      have h1 : c + 1 < D := by omega
      simp [h1]
    rw [hstep]
    have := ih (c + 1) (by omega)
    rw [this]
    congr 1
    omega

/-- C5: with debounce threshold `D`, a silent gap of `g < D` ticks right
after an active tick never produces an active→inactive report (the
detector keeps reporting active throughout the gap); an inactive→active
transition is reported on the very tick it is observed; and while the
detector still reports active, the state machine in `Ducked` stays
`Ducked` and starts no unduck fade. -/
theorem debounce_short_gap (D g : ℕ) (hg : g < D) :
    (∀ k, k ≤ g → detRun D ⟨true, 0⟩ (List.replicate k false) = ⟨true, k⟩) ∧
    (∀ (s : DetState), (detStep D s true).reported = true) ∧
    (∀ f, dmStep DuckState.Ducked true true f = (DuckState.Ducked, MachineAct.none)) := by
  refine ⟨?_, ?_, ?_⟩
  · intro k hk
    have := detRun_replicate_false D k 0 (by omega)
    simpa using this
  · intro s
    simp [detStep]
  · intro f
    rfl

/-- Witness for C5 at threshold 3: a one-tick silent gap keeps the
detector reporting active with one silent tick counted. -/
theorem debounce_short_gap_witness :
    detRun 3 ⟨true, 0⟩ (List.replicate 1 false) = ⟨true, 1⟩ :=
  (debounce_short_gap 3 1 (by norm_num)).1 1 (le_refl 1)

/-- Modelled from the spec: the configuration struct consumed read-only by
the core; app names are abstract identifiers. -/
structure Config where
  duck_level : ℚ
  normal_level : ℚ
  fade_duration : ℚ
  fade_steps : ℕ
  check_interval : ℚ
  monitored_apps : List ℕ
  music_apps : List ℕ
deriving DecidableEq

/-- The configuration invariant of §3: `0 ≤ duck_level ≤ normal_level ≤ 1`. -/
def Config.valid (c : Config) : Prop :=
  0 ≤ c.duck_level ∧ c.duck_level ≤ c.normal_level ∧ c.normal_level ≤ 1

instance : DecidablePred Config.valid := fun c => by
  unfold Config.valid
  infer_instance

/-- The validation errors configuration loading can raise; the constructor
stands for the descriptive level-ordering message. -/
inductive ConfigError where
  | invalidLevels
deriving DecidableEq

/-- Modelled from the spec: validation at load time — a config violating
the level invariant is rejected with a validation error, never clamped; a
valid config is handed to the core unchanged. -/
def validateConfig (c : Config) : Except ConfigError Config :=
  if Config.valid c then Except.ok c else Except.error ConfigError.invalidLevels

/-- C7: load-time validation enforces `0 ≤ duck_level ≤ normal_level ≤ 1`:
valid configs pass unchanged, violating configs are rejected with a
validation error (no `ok` result at all, hence no silent clamping), and
any accepted config is the input itself and satisfies the invariant. -/
theorem config_validation_rejects_invalid (c : Config) :
    (Config.valid c → validateConfig c = Except.ok c) ∧
    (¬Config.valid c → validateConfig c = Except.error ConfigError.invalidLevels ∧
      ∀ c', validateConfig c ≠ Except.ok c') ∧
    (∀ c', validateConfig c = Except.ok c' → c' = c ∧ Config.valid c') := by
  by_cases h : Config.valid c
  · refine ⟨fun _ => by simp [validateConfig, h], fun hn => absurd h hn, ?_⟩
    intro c' hc'
    simp only [validateConfig, if_pos h] at hc'
    cases hc'
    exact ⟨rfl, h⟩
  · refine ⟨fun hv => absurd hv h, fun _ => ⟨by simp [validateConfig, h], ?_⟩, ?_⟩
    · intro c' hc'
      simp [validateConfig, h] at hc'
    · intro c' hc'
      simp [validateConfig, h] at hc'

/-- Witness for C7: the spec's example config (duck 3/20, normal 1) is
accepted unchanged; a config with duck_level above normal_level is
rejected. -/
theorem config_validation_rejects_invalid_witness :
    validateConfig ⟨3 / 20, 1, 4 / 5, 20, 1 / 10, [], []⟩ =
      Except.ok ⟨3 / 20, 1, 4 / 5, 20, 1 / 10, [], []⟩ ∧
    validateConfig ⟨1, 3 / 20, 4 / 5, 20, 1 / 10, [], []⟩ =
      Except.error ConfigError.invalidLevels :=
  ⟨(config_validation_rejects_invalid ⟨3 / 20, 1, 4 / 5, 20, 1 / 10, [], []⟩).1
      (by constructor <;> norm_num),
   ((config_validation_rejects_invalid ⟨1, 3 / 20, 4 / 5, 20, 1 / 10, [], []⟩).2.1
      (by intro hv; exact absurd hv.2.1 (by norm_num))).1⟩

/-- Modelled from the spec: the whole-core state visible through the
control surface: the `enabled` flag, the `DuckState`, the Fade Controller
bookkeeping for the single target, and the target's current volume. -/
structure Sys where
  enabled : Bool
  duck : DuckState
  fc : FadeController
  volume : ℚ
deriving DecidableEq

/-- Modelled from the spec: `disable()` — cancel any in-flight fade, force
the volume to `normal_level`, reset the state to `Normal`, clear the flag. -/
def Sys.disable (cfg : Config) (s : Sys) : Sys :=
  { enabled := false, duck := DuckState.Normal, fc := cancelAllJobs s.fc,
    volume := cfg.normal_level }

/-- Modelled from the spec: `enable()` — set the enabled flag; ducking
decisions are made on later ticks, so no transition and no fade here. -/
def Sys.enable (s : Sys) : Sys := { s with enabled := true }

/-- C6: whatever the current `DuckState` and in-flight fade, `disable()`
cancels every fade (no job keeps an unset token), forces the volume to
`normal_level`, lands in `Normal`, and starts no new fade (the fresh-job
counter is untouched). -/
theorem disable_forces_normal (cfg : Config) (s : Sys) :
    (Sys.disable cfg s).duck = DuckState.Normal ∧
    (Sys.disable cfg s).volume = cfg.normal_level ∧
    activeCount (Sys.disable cfg s).fc = 0 ∧
    (Sys.disable cfg s).fc.nextId = s.fc.nextId :=
  ⟨rfl, rfl, activeCount_cancelAllJobs s.fc, rfl⟩

theorem map_cancelJob_of_all_cancelled (l : List ControllerJob)
    (h : ∀ g ∈ l, g.cancelled = true) : l.map cancelJob = l := by
  induction l with
  | nil => rfl
  | cons g t ih =>
    have hg : cancelJob g = g := by
      cases g with
      | mk i cflag =>
        have := h _ (List.mem_cons_self _ _)
        simp only at this
        simp [cancelJob, this]
    rw [List.map_cons, hg, ih (fun x hx => h x (List.mem_cons_of_mem g hx))]

/-- C9: `enable()` on an already-enabled system is the identity and never
touches the Fade Controller; `disable()` on an already-disabled system
(state `Normal`, volume at `normal_level`, all tokens set) is the
identity; and `disable()` never starts a fade (fresh-job counter
untouched). -/
theorem enable_disable_idempotent (cfg : Config) (s : Sys) :
    (s.enabled = true → Sys.enable s = s) ∧
    (Sys.enable s).fc = s.fc ∧
    (s.enabled = false → s.duck = DuckState.Normal →
      s.volume = cfg.normal_level → (∀ g ∈ s.fc.jobs, g.cancelled = true) →
      Sys.disable cfg s = s) ∧
    (Sys.disable cfg s).fc.nextId = s.fc.nextId := by
  refine ⟨?_, rfl, ?_, rfl⟩
  · intro he
    cases s with
    | mk en d f v =>
      simp only at he
      simp [Sys.enable, he]
  · intro he hd hv hj
    cases s with
    | mk en d f v =>
      simp only at he hd hv
      have hfc : cancelAllJobs f = f := by
        cases f with
        | mk nid jl =>
          unfold cancelAllJobs
          simp only
          rw [map_cancelJob_of_all_cancelled jl hj]
      simp [Sys.disable, he, hd, hv, hfc]

/-- Witness for C9: a disabled system at rest (state `Normal`, volume 1,
one cancelled job) is left exactly as it is by `disable()`. -/
theorem enable_disable_idempotent_witness :
    Sys.disable ⟨3 / 20, 1, 4 / 5, 20, 1 / 10, [], []⟩
        ⟨false, DuckState.Normal, ⟨1, [⟨0, true⟩]⟩, 1⟩ =
      ⟨false, DuckState.Normal, ⟨1, [⟨0, true⟩]⟩, 1⟩ :=
  (enable_disable_idempotent ⟨3 / 20, 1, 4 / 5, 20, 1 / 10, [], []⟩
      ⟨false, DuckState.Normal, ⟨1, [⟨0, true⟩]⟩, 1⟩).2.2.1
    rfl rfl rfl (by decide)

/-- Errors a fade run could surface to its caller; per the spec an absent
target session must never produce one. -/
inductive FadeError where
  | failure
deriving DecidableEq

/-- Modelled from the spec: the fade loop over its remaining step indices:
at each step re-resolve the target session (`present i`); if it is absent
skip the step without error and continue; if present, emit the step's
volume value. -/
def runFadeSteps (j : FadeJob) (present : ℕ → Bool) :
    List ℕ → Except FadeError (List ℚ)
  | [] => Except.ok []
  | i :: is =>
    match runFadeSteps j present is with
    | Except.error e => Except.error e
    | Except.ok rest =>
      Except.ok ((if present i then [fadeValue j i] else []) ++ rest)

/-- Modelled from the spec: run a fade job over a session-availability
schedule, steps numbered `1..steps`. -/
def runFade (j : FadeJob) (present : ℕ → Bool) : Except FadeError (List ℚ) :=
  runFadeSteps j present ((List.range j.steps).map (· + 1))

theorem runFadeSteps_ok (j : FadeJob) (present : ℕ → Bool) (l : List ℕ) :
    runFadeSteps j present l =
      Except.ok (l.filterMap
        (fun i => if present i then some (fadeValue j i) else none)) := by
  induction l with
  | nil => rfl
  | cons i is ih =>
    unfold runFadeSteps
    rw [ih]
    by_cases hp : present i
    · simp [List.filterMap_cons, hp]
    · simp [List.filterMap_cons, hp]

/-- C8: a fade run never raises: it returns `ok` with exactly the values
of the steps whose session was present — an absent session skips its step
while later steps still fire — and a fade whose target has no session for
its entire duration completes as a no-op, with `ok` and no volume writes. -/
theorem fade_absent_session_no_error (j : FadeJob) (present : ℕ → Bool) :
    runFade j present =
      Except.ok ((List.range j.steps).filterMap
        (fun k => if present (k + 1) then some (fadeValue j (k + 1)) else none)) ∧
    ((∀ i, present i = false) → runFade j present = Except.ok []) := by
  have hok : runFade j present =
      Except.ok ((List.range j.steps).filterMap
        (fun k => if present (k + 1) then some (fadeValue j (k + 1)) else none)) := by
    unfold runFade
    rw [runFadeSteps_ok, List.filterMap_map]
    rfl
  refine ⟨hok, ?_⟩
  intro habs
  rw [hok]
  congr 1
  rw [List.filterMap_eq_nil]
  intro k _
  rw [habs (k + 1)]
  simp

/-- Witness for C8: a 5-step fade whose target is absent the whole time
completes as `ok` with no volume writes. -/
theorem fade_absent_session_no_error_witness :
    runFade ⟨1, 3 / 20, 5⟩ (fun _ => false) = Except.ok [] :=
  (fade_absent_session_no_error ⟨1, 3 / 20, 5⟩ (fun _ => false)).2 (fun _ => rfl)

/-- A path as Python's `os.path` sees it: absolute, or relative to the
process working directory; directory components only. -/
inductive PyPath where
  | abs (comps : List ℕ)
  | rel (comps : List ℕ)
deriving DecidableEq

/-- `os.path.abspath`: an absolute path stands; a relative one resolves
against the current working directory. -/
def abspath (cwd : List ℕ) : PyPath → List ℕ
  | PyPath.abs cs => cs
  | PyPath.rel cs => cwd ++ cs

/-- `os.path.dirname` on a component path: drop the final component. -/
def dirname (p : List ℕ) : List ℕ := p.dropLast

/-- The observable effects of the launcher, in program order. -/
inductive LaunchEvent where
  | pathInsert (d : List ℕ)
  | chdir (d : List ℕ)
  | loadMain
  | runMain
deriving DecidableEq

/-- The Python process state the launcher manipulates: working directory,
module search path, and the ordered log of effects so far. -/
structure Proc where
  cwd : List ℕ
  searchPath : List (List ℕ)
  events : List LaunchEvent
deriving DecidableEq

/-- `sys.path.insert(0, d)`. -/
def sysPathInsert0 (d : List ℕ) (st : Proc) : Proc :=
  { st with searchPath := d :: st.searchPath,
            events := st.events ++ [LaunchEvent.pathInsert d] }

/-- `os.chdir(d)`. -/
def osChdir (d : List ℕ) (st : Proc) : Proc :=
  { st with cwd := d, events := st.events ++ [LaunchEvent.chdir d] }

/-- `from duck_my_music import main`. -/
def loadMainModule (st : Proc) : Proc :=
  { st with events := st.events ++ [LaunchEvent.loadMain] }

/-- `main()`. -/
def callMain (st : Proc) : Proc :=
  { st with events := st.events ++ [LaunchEvent.runMain] }

/-- `duck_my_music_silent.pyw`, statement for statement:
`script_dir = os.path.dirname(os.path.abspath(__file__))`;
`sys.path.insert(0, script_dir)`; `os.chdir(script_dir)`;
`from duck_my_music import main`; `main()`. -/
def launcher (file : PyPath) (st : Proc) : Proc :=
  let script_dir := dirname (abspath st.cwd file)
  callMain (loadMainModule (osChdir script_dir (sysPathInsert0 script_dir st)))

/-- C10: from any caller working directory, the launcher prepends the
directory containing the launcher file to the module search path and makes
it the process working directory, and both effects precede the import of
the application module and the call to `main` in the effect log; afterward
every relative resource resolves against the launcher's own directory, and
with an absolute `__file__` the computed directory does not depend on the
caller's working directory at all. -/
theorem launcher_script_dir_setup (file : PyPath) (st : Proc) :
    (launcher file st).searchPath = dirname (abspath st.cwd file) :: st.searchPath ∧
    (launcher file st).cwd = dirname (abspath st.cwd file) ∧
    (launcher file st).events = st.events ++
      [LaunchEvent.pathInsert (dirname (abspath st.cwd file)),
       LaunchEvent.chdir (dirname (abspath st.cwd file)),
       LaunchEvent.loadMain, LaunchEvent.runMain] ∧
    (∀ r, abspath (launcher file st).cwd (PyPath.rel r) =
      dirname (abspath st.cwd file) ++ r) ∧
    (∀ cwd₁ cwd₂ cs,
      dirname (abspath cwd₁ (PyPath.abs cs)) = dirname (abspath cwd₂ (PyPath.abs cs))) := by
  refine ⟨rfl, rfl, ?_, fun r => rfl, fun cwd₁ cwd₂ cs => rfl⟩
  show st.events ++ [LaunchEvent.pathInsert _] ++ [LaunchEvent.chdir _] ++
      [LaunchEvent.loadMain] ++ [LaunchEvent.runMain] = _
  simp

end DuckMyMusic
